import Mathlib

/-!
# gfmxr command-line front end (`cli.go`)

A shallow embedding of `RunExamples`, `cliRunExamples`, `cliListFrobs` and
`cliDumpLanguages`.  Collaborators that live outside `cli.go` (`NewRunner`,
`Runner.Run`, `LoadLanguages`, `Languages.Lookup`, `DefaultFrobs`,
`json.MarshalIndent`) are fields of an environment `Env`; every call that has
an observable effect is recorded in a trace of `Event`s.
-/

namespace Gfmxr

/-! ## Errors -/

/-- A non-nil Go `error` value.  `exit message code` is the value built by
`cli.Exit(message, code)`; `other` stands for any error produced by a
collaborator.

Modelled from the spec: the type `multiError` is declared outside `cli.go`;
following the "AggregatedError" of the data model it is an ordered collection
of individual errors that supports enumeration of all its members, so
`multi errs` keeps the converted slice as it is. -/
inductive GoError where
  | other (msg : String)
  | exit (message : String) (code : Int)
  | multi (errs : List (Option GoError))

/-- The Go interface type `error`: `none` is `nil`. -/
abbrev error := Option GoError

/-- The conversion `multiError(errs)` of a slice of errors, as an `error`. -/
def multiError (errs : List error) : error := some (GoError.multi errs)

/-- Members of an aggregate, in order; any other error has no members. -/
def GoError.members : GoError → List error
  | GoError.multi errs => errs
  | _ => []

/-- The exit code carried by an exit request. -/
def GoError.exitCode : GoError → Option Int
  | GoError.exit _ code => some code
  | _ => none

/-! ## Collaborators -/

/-- Levels of a `logrus.Logger`. -/
inductive Level where
  | InfoLevel
  | DebugLevel
deriving DecidableEq, Repr

/-- The part of a `logrus.Logger` that `cli.go` touches. -/
structure Logger where
  Level : Level
deriving DecidableEq, Repr

/-- The logger `logrus.New()` returns: level `InfoLevel`. -/
def logrusNew : Logger := { Level := Level.InfoLevel }

/-- A constructed runner; `Run` is the slice of errors its `Run()` method
returns. -/
structure Runner where
  Run : List error

/-- One language definition; only `Aliases` is read by `cli.go`. -/
structure LanguageDefinition where
  Aliases : List String

/-- A loaded language table: the `Map` field and the `Lookup` method
(`none` is the nil pointer). -/
structure Languages where
  Map : List (String × LanguageDefinition)
  Lookup : String → Option LanguageDefinition

/-- What `cli.go` calls but does not define. -/
structure Env where
  NewRunner : List String → Int → String → Bool → Logger → Except GoError Runner
  LoadLanguages : String → Except GoError Languages
  MarshalIndent : List (String × LanguageDefinition) → String → String → Except GoError String
  DefaultFrobs : List String
  PullLanguagesYml : String → String → error

/-- The flag accessors of a `cli.Context`; a nil slice is `none`. -/
structure Context where
  flagBool : String → Bool
  flagInt : String → Int
  flagString : String → String
  flagStringSlice : String → Option (List String)

/-- Observable calls, in the order they are made. -/
inductive Event where
  | newRunner (sources : List String) (expectedCount : Int) (languagesFile : String)
      (autoPull : Bool) (log : Logger)
  | run
  | logError (log : Logger) (err : GoError)
  | loadLanguages (path : String)
  | stdout (text : String)

/-- The error a function returns together with the calls it made. -/
structure Outcome where
  result : error
  trace : List Event

/-- Number of `Runner.Run` invocations in a trace. -/
def runCalls : List Event → Nat
  | [] => 0
  | Event.run :: es => runCalls es + 1
  | _ :: es => runCalls es

/-- The `autoPull` arguments handed to `NewRunner`, in call order. -/
def autoPullArgs : List Event → List Bool
  | [] => []
  | Event.newRunner _ _ _ autoPull _ :: es => autoPull :: autoPullArgs es
  | _ :: es => autoPullArgs es

/-! ## `RunExamples` and `cliRunExamples` -/

/-- `RunExamples(sources, expectedCount, languagesFile, autoPull, log)`. -/
def RunExamples (env : Env) (sources : Option (List String)) (expectedCount : Int)
    (languagesFile : String) (autoPull : Bool) (log : Option Logger) : Outcome :=
  let sources := match sources with
    | none => []
    | some s => s
  let log := match log with
    | none => logrusNew
    | some l => l
  let call := Event.newRunner sources expectedCount languagesFile autoPull log
  match env.NewRunner sources expectedCount languagesFile autoPull log with
  | Except.error err => { result := some err, trace := [call] }
  | Except.ok runner =>
    let errs := runner.Run
    if errs.length > 0 then
      { result := multiError errs, trace := [call, Event.run] }
    else
      { result := none, trace := [call, Event.run] }

/-- `cliRunExamples(ctx)`. -/
def cliRunExamples (env : Env) (ctx : Context) : Outcome :=
  let log := logrusNew
  let log := if ctx.flagBool "debug" then { log with Level := Level.DebugLevel } else log
  let r := RunExamples env (ctx.flagStringSlice "sources") (ctx.flagInt "count")
    (ctx.flagString "languages") (ctx.flagBool "no-auto-pull") (some log)
  match r.result with
  | some err =>
    { result := multiError [some err, some (GoError.exit "" 2)],
      trace := r.trace ++ [Event.logError log err] }
  | none => { result := none, trace := r.trace }

/-! ## `fmt.Printf`

The text `fmt.Printf(format, a...)` writes, following `doPrintf` of the Go
standard library, for operands that are strings. -/

/-- The flags of one verb (`fmtFlags`), as far as the scan sets them. -/
structure fmtFlags where
  widPresent : Bool := false
  precPresent : Bool := false
  minus : Bool := false
  plus : Bool := false
  sharp : Bool := false
  space : Bool := false
  zero : Bool := false
deriving DecidableEq, Repr

/-- The state of the printer `pp` that `doPrintf` keeps between verbs. -/
structure pp where
  buf : List Char
  reordered : Bool
  goodArgNum : Bool
deriving DecidableEq, Repr

/-- `tooLarge`: the bound on widths, precisions and argument numbers. -/
def tooLarge (x : Nat) : Bool := decide (x > 1000000)

/-- The loop of `parsenum`: the number read, whether one was read, and the
rest of the text; running past the bound gives up and drops the rest. -/
def parsenumLoop : List Char → Nat → Bool → Nat × Bool × List Char
  | [], num, isnum => (num, isnum, [])
  | c :: cs, num, isnum =>
    if '0' ≤ c ∧ c ≤ '9' then
      if tooLarge num then (0, false, [])
      else parsenumLoop cs (num * 10 + (c.toNat - '0'.toNat)) true
    else (num, isnum, c :: cs)

/-- `parsenum` on the text between its `start` and `end`. -/
def parsenum (s : List Char) : Nat × Bool × List Char := parsenumLoop s 0 false

/-- `parseArgNumber` on text that starts at a `[`: the zero-based index, the
text after what was consumed, and whether an index was read. -/
def parseArgNumber (format : List Char) : Int × List Char × Bool :=
  if format.length < 3 then (0, format.drop 1, false)
  else
    let body := format.drop 1
    let inner := body.takeWhile (fun c => c != ']')
    let after := body.dropWhile (fun c => c != ']')
    match after with
    | [] => (0, format.drop 1, false)
    | _ :: rest =>
      match parsenum inner with
      | (width, ok, left) =>
        if !ok || !left.isEmpty then (0, rest, false)
        else ((width : Int) - 1, rest, true)

/-- `argNumber`: the new argument number, the remaining text, whether an
explicit index was found, and the updated printer. -/
def argNumber (p : pp) (argNum : Nat) (format : List Char) (numArgs : Nat) :
    pp × Nat × List Char × Bool :=
  match format with
  | '[' :: _ =>
    let p := { p with reordered := true }
    match parseArgNumber format with
    | (index, rest, ok) =>
      if ok && decide (0 ≤ index) && decide (index < (numArgs : Int)) then
        (p, index.toNat, rest, true)
      else
        ({ p with goodArgNum := false }, argNum, rest, ok)
  | _ => (p, argNum, format, false)

/-- The flag loop that opens a verb, without its fast path. -/
def scanFlags : List Char → fmtFlags → fmtFlags × List Char
  | '#' :: cs, f => scanFlags cs { f with sharp := true }
  | '0' :: cs, f => scanFlags cs { f with zero := !f.minus }
  | '+' :: cs, f => scanFlags cs { f with plus := true }
  | '-' :: cs, f => scanFlags cs { f with minus := true, zero := false }
  | ' ' :: cs, f => scanFlags cs { f with space := true }
  | cs, f => (f, cs)

/-- `printArg` for a string operand.  Only the plain verbs `%s` and `%v`
(no flag, width or precision) are modelled; `none` marks everything else. -/
def printArg (f : fmtFlags) (arg : String) (verb : Char) : Option (List Char) :=
  if f = {} ∧ (verb = 's' ∨ verb = 'v') then some arg.data else none

/-- `intFromArg` when every operand is a string: no operand is an integer, but
an available operand is consumed. -/
def intFromArg (a : List String) (argNum : Nat) : Bool × Nat :=
  if argNum < a.length then (false, argNum + 1) else (false, argNum)

/-- The width part of a verb: printer, flags, argument number, rest of the
format, and whether an explicit index is still pending. -/
def scanWidth (a : List String) (p : pp) (f : fmtFlags) (argNum : Nat) (afterIndex : Bool)
    (format : List Char) : pp × fmtFlags × Nat × Bool × List Char :=
  match format with
  | '*' :: rest =>
    match intFromArg a argNum with
    | (widPresent, argNum) =>
      let p := if !widPresent then { p with buf := p.buf ++ "%!(BADWIDTH)".data } else p
      (p, { f with widPresent := widPresent }, argNum, false, rest)
  | _ =>
    match parsenum format with
    | (_, widPresent, rest) =>
      let p := if afterIndex && widPresent then { p with goodArgNum := false } else p
      (p, { f with widPresent := widPresent }, argNum, afterIndex, rest)

/-- The precision part of a verb. -/
def scanPrecision (a : List String) (p : pp) (f : fmtFlags) (argNum : Nat) (afterIndex : Bool)
    (format : List Char) : pp × fmtFlags × Nat × Bool × List Char :=
  match format with
  | '.' :: rest =>
    let p := if afterIndex then { p with goodArgNum := false } else p
    match argNumber p argNum rest a.length with
    | (p, argNum, rest, afterIndex) =>
      match rest with
      | '*' :: rest =>
        match intFromArg a argNum with
        | (precPresent, argNum) =>
          let p := if !precPresent then { p with buf := p.buf ++ "%!(BADPREC)".data } else p
          (p, { f with precPresent := precPresent }, argNum, false, rest)
      | _ =>
        match parsenum rest with
        | (_, _, rest) => (p, { f with precPresent := true }, argNum, afterIndex, rest)
  | _ => (p, f, argNum, afterIndex, format)

/-- The final `switch` of a verb: `none` when an operand has to be formatted
in a way `printArg` does not model. -/
def printVerb (a : List String) (p : pp) (f : fmtFlags) (argNum : Nat) (verb : Char) :
    Option (pp × Nat) :=
  if verb = '%' then some ({ p with buf := p.buf ++ ['%'] }, argNum)
  else if !p.goodArgNum then
    some ({ p with buf := p.buf ++ "%!".data ++ [verb] ++ "(BADINDEX)".data }, argNum)
  else
    match a.get? argNum with
    | none => some ({ p with buf := p.buf ++ "%!".data ++ [verb] ++ "(MISSING)".data }, argNum)
    | some arg =>
      match printArg f arg verb with
      | none => none
      | some out => some ({ p with buf := p.buf ++ out }, argNum + 1)

/-- The fast path of the flag loop: a lower-case verb right after the flags
while an operand is left.  Gives the operand, the verb and the rest. -/
def fastVerb (a : List String) (argNum : Nat) (format : List Char) :
    Option (String × Char × List Char) :=
  match format, a.get? argNum with
  | c :: rest, some arg => if 'a' ≤ c ∧ c ≤ 'z' then some (arg, c, rest) else none
  | _, _ => none

/-- The explicit index, width and precision of a verb, up to the verb
character. -/
def scanVerb (a : List String) (p : pp) (f : fmtFlags) (argNum : Nat) (format : List Char) :
    pp × fmtFlags × Nat × List Char :=
  match argNumber p argNum format a.length with
  | (p, argNum, format, afterIndex) =>
    match scanWidth a p f argNum afterIndex format with
    | (p, f, argNum, afterIndex, format) =>
      match scanPrecision a p f argNum afterIndex format with
      | (p, f, argNum, afterIndex, format) =>
        match afterIndex with
        | true => (p, f, argNum, format)
        | false =>
          match argNumber p argNum format a.length with
          | (p, argNum, format, _) => (p, f, argNum, format)

/-- The head of a round of the `formatLoop`: `goodArgNum` is set again and the
text before the next `%` is copied to the buffer. -/
def copyText (p : pp) (format : List Char) : pp :=
  { buf := p.buf ++ format.takeWhile (fun c => c != '%'), reordered := p.reordered,
    goodArgNum := true }

/-- The rest of a round, on the format from the next `%` on: one verb is
handled.  The last component is the format left for the next round, `none`
when the loop is left.  The result is `none` when `printArg` gives `none`. -/
def formatVerb (a : List String) (p : pp) (argNum : Nat) :
    List Char → Option (pp × Nat × Option (List Char))
  | [] => some (p, argNum, none)
  | _ :: format =>
    match scanFlags format {} with
    | (f, format) =>
      match fastVerb a argNum format with
      | some (arg, c, rest) =>
        match printArg f arg c with
        | none => none
        | some out => some ({ p with buf := p.buf ++ out }, argNum + 1, some rest)
      | none =>
        match scanVerb a p f argNum format with
        | (p, f, argNum, format) =>
          match format with
          | [] => some ({ p with buf := p.buf ++ "%!(NOVERB)".data }, argNum, none)
          | verb :: format =>
            match printVerb a p f argNum verb with
            | none => none
            | some (p, argNum) => some (p, argNum, some format)

/-- One round of the `formatLoop` of `doPrintf`. -/
def formatStep (a : List String) (p : pp) (argNum : Nat) (format : List Char) :
    Option (pp × Nat × Option (List Char)) :=
  formatVerb a (copyText p format) argNum (format.dropWhile (fun c => c != '%'))

/-- The `formatLoop` of `doPrintf`, one `formatStep` per round.  `none`: out
of fuel, or `printArg` gave `none`. -/
def formatLoop (a : List String) : Nat → pp → Nat → List Char → Option (pp × Nat)
  | 0, _, _, _ => none
  | fuel + 1, p, argNum, format =>
    match formatStep a p argNum format with
    | none => none
    | some (p, argNum, none) => some (p, argNum)
    | some (p, argNum, some format) => formatLoop a fuel p argNum format

/-- The `%!(EXTRA ...)` report for operands no verb consumed. -/
def extraArgs (rest : List String) : List Char :=
  "%!(EXTRA ".data ++ (", ".intercalate (rest.map (fun arg => "string=" ++ arg))).data ++ [')']

/-- `doPrintf(format, a)` for string operands: the text written. -/
def doPrintf (format : String) (a : List String) : Option String :=
  match formatLoop a (format.length + 1)
      { buf := [], reordered := false, goodArgNum := true } 0 format.data with
  | none => none
  | some (p, argNum) =>
    if !p.reordered && decide (argNum < a.length) then
      some (String.mk (p.buf ++ extraArgs (a.drop argNum)))
    else some (String.mk p.buf)

/-! ## `cliListFrobs` and `cliDumpLanguages` -/

/-- Why a call does not return: a nil pointer is dereferenced, or the text to
print is outside what `doPrintf` models. -/
inductive Abort where
  | nilDereference
  | unmodelled
deriving DecidableEq, Repr

/-- The assignment `known[alias] = true` on a `map[string]bool` whose values
are all `true`, kept as the list of its keys. -/
def mapSet (known : List String) (key : String) : List String :=
  if key ∈ known then known else known ++ [key]

/-- The loop over `DefaultFrobs` that fills `known`; `none` when `Lookup`
returns nil for a name. -/
def collectKnown (langs : Languages) : List String → List String → Option (List String)
  | [], known => some known
  | name :: names, known =>
    match langs.Lookup name with
    | none => none
    | some definition => collectKnown langs names (definition.Aliases.foldl mapSet known)

/-- Go string comparison `a <= b` (lexicographic). -/
def stringLE (a b : String) : Bool := decide (a.data ≤ b.data)

/-- `sort.Strings`: ascending order. -/
def sortStrings (xs : List String) : List String :=
  xs.insertionSort (fun a b => stringLE a b = true)

/-- The loop `fmt.Printf("%s\n", lang)` over `knownSlice`. -/
def printLines : List String → Option (List Event)
  | [] => some []
  | lang :: rest =>
    match doPrintf "%s\n" [lang], printLines rest with
    | some text, some events => some (Event.stdout text :: events)
    | _, _ => none

/-- `cliListFrobs(ctx)`. -/
def cliListFrobs (env : Env) (ctx : Context) : Except Abort Outcome :=
  let path := ctx.flagString "languages"
  match env.LoadLanguages path with
  | Except.error err => Except.ok { result := some err, trace := [Event.loadLanguages path] }
  | Except.ok langs =>
    match collectKnown langs env.DefaultFrobs [] with
    | none => Except.error Abort.nilDereference
    | some known =>
      let knownSlice := sortStrings known
      match printLines knownSlice with
      | none => Except.error Abort.unmodelled
      | some events =>
        Except.ok { result := none, trace := Event.loadLanguages path :: events }

/-- `cliDumpLanguages(ctx)`. -/
def cliDumpLanguages (env : Env) (ctx : Context) : Except Abort Outcome :=
  let path := ctx.flagString "languages"
  match env.LoadLanguages path with
  | Except.error err =>
    Except.ok { result := multiError [some (GoError.exit "failed to load languages" 4), some err],
                trace := [Event.loadLanguages path] }
  | Except.ok langs =>
    match env.MarshalIndent langs.Map "" "  " with
    | Except.error err =>
      Except.ok { result := multiError [some (GoError.exit "failed to marshal to json" 4), some err],
                  trace := [Event.loadLanguages path] }
    | Except.ok jsonBytes =>
      match doPrintf (jsonBytes ++ "\n") [] with
      | none => Except.error Abort.unmodelled
      | some text =>
        Except.ok { result := none, trace := [Event.loadLanguages path, Event.stdout text] }

/-- `cliPullLanguages(ctx)`. -/
def cliPullLanguages (env : Env) (ctx : Context) : error :=
  env.PullLanguagesYml (ctx.flagString "languages-url") (ctx.flagString "languages")

/-- Everything written to standard output, in order. -/
def stdoutText : List Event → String
  | [] => ""
  | Event.stdout text :: es => text ++ stdoutText es
  | _ :: es => stdoutText es

/-! ## Sample inputs -/

/-- A small language table: two languages with their aliases. -/
def sampleLanguages : Languages where
  Map := [("Go", { Aliases := ["go", "golang"] }), ("Shell", { Aliases := ["sh", "bash", "go"] })]
  Lookup := fun name =>
    if name = "Go" then some { Aliases := ["go", "golang"] }
    else if name = "Shell" then some { Aliases := ["sh", "bash", "go"] }
    else none

/-- An environment around `sampleLanguages` whose `NewRunner` returns `made`. -/
def sampleEnv (made : Except GoError Runner) : Env where
  NewRunner := fun _ _ _ _ _ => made
  LoadLanguages := fun _ => Except.ok sampleLanguages
  MarshalIndent := fun _ _ _ => Except.ok "\x7b\x7d"
  DefaultFrobs := ["Shell", "Go"]
  PullLanguagesYml := fun _ _ => none

/-- A runner whose run reports two failures. -/
def failingRunner : Runner :=
  { Run := [some (GoError.other "example 1"), some (GoError.other "example 2")] }

/-- A context in which every boolean flag has the given value, the languages
file is `languages.yml` and the only source is `README.md`. -/
def sampleContext (flag : Bool) : Context where
  flagBool := fun _ => flag
  flagInt := fun _ => 0
  flagString := fun _ => "languages.yml"
  flagStringSlice := fun _ => some ["README.md"]

/-- A table with one language whose name ends in a percent sign. -/
def percentLanguages : Languages where
  Map := [("100%", { Aliases := [] })]
  Lookup := fun name => if name = "100%" then some { Aliases := [] } else none

/-- The indented JSON text of a map with the single key `100%` and an empty
object as its value. -/
def percentJSON : String := "\x7b\n  \"100%\": \x7b\x7d\n\x7d"

/-- An environment that loads `percentLanguages` and encodes it as
`percentJSON`. -/
def percentEnv : Env where
  NewRunner := fun _ _ _ _ _ => Except.ok { Run := [] }
  LoadLanguages := fun _ => Except.ok percentLanguages
  MarshalIndent := fun _ _ _ => Except.ok percentJSON
  DefaultFrobs := []
  PullLanguagesYml := fun _ _ => none

/-! # Properties

## `RunExamples` -/

/-- What `RunExamples` does when `NewRunner` fails. -/
theorem RunExamples_of_error (env : Env) (sources : Option (List String))
    (expectedCount : Int) (languagesFile : String) (autoPull : Bool) (log : Option Logger)
    (err : GoError)
    (h : env.NewRunner (sources.getD []) expectedCount languagesFile autoPull
      (log.getD logrusNew) = Except.error err) :
    RunExamples env sources expectedCount languagesFile autoPull log =
      { result := some err,
        trace := [Event.newRunner (sources.getD []) expectedCount languagesFile autoPull
          (log.getD logrusNew)] } := by
  cases sources <;> cases log <;> simp only [Option.getD] at h ⊢ <;> simp only [RunExamples, h]

/-- What `RunExamples` does when `NewRunner` succeeds. -/
theorem RunExamples_of_ok (env : Env) (sources : Option (List String))
    (expectedCount : Int) (languagesFile : String) (autoPull : Bool) (log : Option Logger)
    (runner : Runner)
    (h : env.NewRunner (sources.getD []) expectedCount languagesFile autoPull
      (log.getD logrusNew) = Except.ok runner) :
    RunExamples env sources expectedCount languagesFile autoPull log =
      { result := if runner.Run.length > 0 then some (GoError.multi runner.Run) else none,
        trace := [Event.newRunner (sources.getD []) expectedCount languagesFile autoPull
          (log.getD logrusNew), Event.run] } := by
  cases sources <;> cases log <;> simp only [Option.getD] at h ⊢ <;>
    simp only [RunExamples, h, multiError] <;> split <;> rfl

/-- C1: when `NewRunner` succeeds, `RunExamples` returns nil exactly when
`Run` returns an empty list; a non-empty list gives the aggregate of that
list, and the empty aggregate is never returned. -/
theorem RunExamples_nil_iff_no_errors (env : Env) (sources : Option (List String))
    (expectedCount : Int) (languagesFile : String) (autoPull : Bool) (log : Option Logger)
    (runner : Runner)
    (h : env.NewRunner (sources.getD []) expectedCount languagesFile autoPull
      (log.getD logrusNew) = Except.ok runner) :
    ((RunExamples env sources expectedCount languagesFile autoPull log).result = none ↔
        runner.Run.length = 0) ∧
    (runner.Run.length > 0 →
      (RunExamples env sources expectedCount languagesFile autoPull log).result =
        some (GoError.multi runner.Run)) ∧
    (RunExamples env sources expectedCount languagesFile autoPull log).result ≠
      some (GoError.multi []) := by
  rw [RunExamples_of_ok env sources expectedCount languagesFile autoPull log runner h]
  by_cases hlen : runner.Run.length > 0
  · refine ⟨?_, ?_, ?_⟩
    · simp only [if_pos hlen]
      constructor
      · intro hnone
        cases hnone
      · intro hzero
        omega
    · intro _
      simp only [if_pos hlen]
    · simp only [if_pos hlen]
      intro heq
      injection heq with heq
      injection heq with heq
      rw [heq] at hlen
      exact Nat.lt_irrefl 0 hlen
  · refine ⟨?_, ?_, ?_⟩
    · simp only [if_neg hlen]
      constructor
      · intro _
        omega
      · intro _
        trivial
    · intro hpos
      exact absurd hpos hlen
    · simp only [if_neg hlen]
      intro heq
      cases heq

/-- Witness for C1: a runner that reports two failures. -/
theorem RunExamples_nil_iff_no_errors_witness :
    ((RunExamples (sampleEnv (Except.ok failingRunner)) none 0 "languages.yml" true none).result
        = none ↔ failingRunner.Run.length = 0) ∧
    (failingRunner.Run.length > 0 →
      (RunExamples (sampleEnv (Except.ok failingRunner)) none 0 "languages.yml" true none).result
        = some (GoError.multi failingRunner.Run)) ∧
    (RunExamples (sampleEnv (Except.ok failingRunner)) none 0 "languages.yml" true none).result
      ≠ some (GoError.multi []) :=
  RunExamples_nil_iff_no_errors (sampleEnv (Except.ok failingRunner)) none 0 "languages.yml"
    true none failingRunner rfl

/-- C2: for a non-empty list returned by `Run`, `RunExamples` returns the
aggregate whose members are that list: same elements, same length, same
order. -/
theorem RunExamples_aggregate_members (env : Env) (sources : Option (List String))
    (expectedCount : Int) (languagesFile : String) (autoPull : Bool) (log : Option Logger)
    (runner : Runner)
    (h : env.NewRunner (sources.getD []) expectedCount languagesFile autoPull
      (log.getD logrusNew) = Except.ok runner)
    (hne : runner.Run ≠ []) :
    ∃ agg : GoError,
      (RunExamples env sources expectedCount languagesFile autoPull log).result = some agg ∧
      some agg = multiError runner.Run ∧
      agg.members = runner.Run ∧
      agg.members.length = runner.Run.length ∧
      ∀ i : Nat, agg.members.get? i = runner.Run.get? i := by
  have hlen : runner.Run.length > 0 := List.length_pos.mpr hne
  refine ⟨GoError.multi runner.Run, ?_, rfl, rfl, rfl, fun _ => rfl⟩
  rw [RunExamples_of_ok env sources expectedCount languagesFile autoPull log runner h]
  simp only [if_pos hlen]

/-- Witness for C2: a runner that reports two failures. -/
theorem RunExamples_aggregate_members_witness :
    ∃ agg : GoError,
      (RunExamples (sampleEnv (Except.ok failingRunner)) (some ["README.md"]) 2 "languages.yml"
        false (some logrusNew)).result = some agg ∧
      some agg = multiError failingRunner.Run ∧
      agg.members = failingRunner.Run ∧
      agg.members.length = failingRunner.Run.length ∧
      ∀ i : Nat, agg.members.get? i = failingRunner.Run.get? i :=
  RunExamples_aggregate_members (sampleEnv (Except.ok failingRunner)) (some ["README.md"]) 2
    "languages.yml" false (some logrusNew) failingRunner rfl (by simp [failingRunner])

/-- C3: if `NewRunner` fails with `e`, `RunExamples` returns `e` itself and
`Run` is not invoked; otherwise `Run` is invoked exactly once. -/
theorem RunExamples_aborts_only_on_NewRunner_failure (env : Env)
    (sources : Option (List String)) (expectedCount : Int) (languagesFile : String)
    (autoPull : Bool) (log : Option Logger) :
    match env.NewRunner (sources.getD []) expectedCount languagesFile autoPull
        (log.getD logrusNew) with
    | Except.error e =>
      (RunExamples env sources expectedCount languagesFile autoPull log).result = some e ∧
      runCalls (RunExamples env sources expectedCount languagesFile autoPull log).trace = 0
    | Except.ok _ =>
      runCalls (RunExamples env sources expectedCount languagesFile autoPull log).trace = 1 := by
  split
  · rename_i e he
    rw [RunExamples_of_error env sources expectedCount languagesFile autoPull log e he]
    exact ⟨rfl, rfl⟩
  · rename_i r hr
    rw [RunExamples_of_ok env sources expectedCount languagesFile autoPull log r hr]
    rfl

/-! ## `cliRunExamples` -/

/-- The `autoPull` argument `cliRunExamples` hands on is the value of the
`no-auto-pull` flag itself. -/
theorem cliRunExamples_autoPull (env : Env) (ctx : Context) :
    autoPullArgs (cliRunExamples env ctx).trace = [ctx.flagBool "no-auto-pull"] := by
  simp only [cliRunExamples, RunExamples]
  split <;> split <;> split <;> simp_all [autoPullArgs, multiError]

/-- C4: `cliRunExamples` returns nil exactly when `RunExamples` does;
otherwise it returns the aggregate of the error `RunExamples` returned,
unchanged, followed by an exit request with code 2 and an empty message. -/
theorem cliRunExamples_failure_iff (env : Env) (ctx : Context) :
    ((cliRunExamples env ctx).result = none ↔
      (RunExamples env (ctx.flagStringSlice "sources") (ctx.flagInt "count")
        (ctx.flagString "languages") (ctx.flagBool "no-auto-pull")
        (some (if ctx.flagBool "debug" then { Level := Level.DebugLevel }
          else logrusNew))).result = none) ∧
    match (RunExamples env (ctx.flagStringSlice "sources") (ctx.flagInt "count")
        (ctx.flagString "languages") (ctx.flagBool "no-auto-pull")
        (some (if ctx.flagBool "debug" then { Level := Level.DebugLevel }
          else logrusNew))).result with
    | none => (cliRunExamples env ctx).result = none
    | some err =>
      (cliRunExamples env ctx).result =
        some (GoError.multi [some err, some (GoError.exit "" 2)]) ∧
      (GoError.exit "" 2).exitCode = some 2 ∧ (2 : Int) ≠ 0 := by
  have hlog : ({ logrusNew with Level := Level.DebugLevel } : Logger) =
      { Level := Level.DebugLevel } := rfl
  simp only [cliRunExamples, hlog]
  generalize (RunExamples env (ctx.flagStringSlice "sources") (ctx.flagInt "count")
        (ctx.flagString "languages") (ctx.flagBool "no-auto-pull")
        (some (if ctx.flagBool "debug" then { Level := Level.DebugLevel }
          else logrusNew))) = r
  rcases r with ⟨result, trace⟩
  cases result with
  | none => exact ⟨⟨fun _ => rfl, fun _ => rfl⟩, rfl⟩
  | some err =>
    refine ⟨⟨?_, ?_⟩, rfl, rfl, by decide⟩
    · intro hnone
      simp [multiError] at hnone
    · intro hnone
      cases hnone

/-- C5, the code at a context where `no-auto-pull` is set: `NewRunner` is
handed `autoPull = true`, the flag value itself and not its negation. -/
theorem cliRunExamples_no_auto_pull_set :
    (sampleContext true).flagBool "no-auto-pull" = true ∧
    autoPullArgs (cliRunExamples (sampleEnv (Except.ok failingRunner))
      (sampleContext true)).trace = [true] ∧
    autoPullArgs (cliRunExamples (sampleEnv (Except.ok failingRunner))
      (sampleContext false)).trace = [false] :=
  ⟨rfl, cliRunExamples_autoPull _ _, cliRunExamples_autoPull _ _⟩

/-! ## `fmt.Printf` -/

/-- The call `fmt.Printf("%s\n", lang)` writes `lang` and a newline. -/
theorem doPrintf_line (lang : String) : doPrintf "%s\n" [lang] = some (lang ++ "\n") := by
  cases lang
  simp [doPrintf, formatLoop, formatStep, formatVerb, copyText, fastVerb, scanFlags, printArg]
  rfl

/-- A format without a percent sign and without operands is written as it
is. -/
theorem doPrintf_plain (format : String) (h : '%' ∉ format.data) :
    doPrintf format [] = some format := by
  have htake : format.data.takeWhile (fun c => c != '%') = format.data := by
    rw [List.takeWhile_eq_self_iff]
    intro c hc
    have : c ≠ '%' := fun heq => h (heq ▸ hc)
    simpa using this
  have hdrop : format.data.dropWhile (fun c => c != '%') = [] := by
    rw [List.dropWhile_eq_nil_iff]
    intro c hc
    have : c ≠ '%' := fun heq => h (heq ▸ hc)
    simpa using this
  simp only [doPrintf, formatLoop, formatStep, formatVerb, copyText, htake, hdrop, List.nil_append]
  simp

/-- `parsenum` never returns more text than it was given. -/
theorem parsenumLoop_length (cs : List Char) (num : Nat) (isnum : Bool) :
    (parsenumLoop cs num isnum).2.2.length ≤ cs.length := by
  induction cs generalizing num isnum with
  | nil => simp [parsenumLoop]
  | cons c cs ih =>
    unfold parsenumLoop
    split
    · split
      · simp
      · exact Nat.le_succ_of_le (ih _ _)
    · simp

/-- `parseArgNumber` never returns more text than it was given. -/
theorem parseArgNumber_length (format : List Char) :
    (parseArgNumber format).2.1.length ≤ format.length := by
  unfold parseArgNumber
  split
  · simp
  · simp only
    split
    · simp
    · rename_i c rest hafter
      have h1 : (List.dropWhile (fun c => c != ']') (List.drop 1 format)).length ≤
          (List.drop 1 format).length := (List.dropWhile_sublist _).length_le
      rw [hafter] at h1
      simp only [List.length_cons, List.length_drop] at h1
      split <;> simp <;> omega

/-- `argNumber` returns no more text than it was given and leaves the buffer
alone. -/
theorem argNumber_length (p : pp) (argNum : Nat) (format : List Char) (numArgs : Nat) :
    (argNumber p argNum format numArgs).2.2.1.length ≤ format.length ∧
    (argNumber p argNum format numArgs).1.buf = p.buf := by
  unfold argNumber
  split
  · rename_i tl
    have := parseArgNumber_length ('[' :: tl)
    revert this
    rcases parseArgNumber ('[' :: tl) with ⟨index, rest, ok⟩
    intro this
    simp only
    split <;> exact ⟨this, rfl⟩
  · exact ⟨Nat.le_refl _, rfl⟩

/-- The flag loop returns no more text than it was given. -/
theorem scanFlags_length (cs : List Char) (f : fmtFlags) :
    (scanFlags cs f).2.length ≤ cs.length := by
  induction cs generalizing f with
  | nil => simp [scanFlags]
  | cons c cs ih =>
    unfold scanFlags
    split <;> first
      | (rename_i heq; injection heq with h1 h2; subst h2; exact Nat.le_succ_of_le (ih _))
      | simp

/-- The width part returns no more text than it was given and only adds to
the buffer. -/
theorem scanWidth_spec (a : List String) (p : pp) (f : fmtFlags) (argNum : Nat)
    (afterIndex : Bool) (format : List Char) :
    (scanWidth a p f argNum afterIndex format).2.2.2.2.length ≤ format.length ∧
    ∃ suffix, (scanWidth a p f argNum afterIndex format).1.buf = p.buf ++ suffix := by
  unfold scanWidth
  split
  · rcases intFromArg a argNum with ⟨widPresent, argNum1⟩
    simp only
    cases widPresent
    · exact ⟨by simp, "%!(BADWIDTH)".data, by simp⟩
    · exact ⟨by simp, [], by simp⟩
  · have := parsenumLoop_length format 0 false
    revert this
    unfold parsenum
    rcases parsenumLoop format 0 false with ⟨num, widPresent, rest⟩
    intro this
    refine ⟨this, [], ?_⟩
    simp only
    split <;> simp

/-- The precision part returns no more text than it was given and only adds
to the buffer. -/
theorem scanPrecision_spec (a : List String) (p : pp) (f : fmtFlags) (argNum : Nat)
    (afterIndex : Bool) (format : List Char) :
    (scanPrecision a p f argNum afterIndex format).2.2.2.2.length ≤ format.length ∧
    ∃ suffix, (scanPrecision a p f argNum afterIndex format).1.buf = p.buf ++ suffix := by
  unfold scanPrecision
  split
  · rename_i rest
    simp only
    have harg := argNumber_length (if afterIndex = true then { p with goodArgNum := false } else p)
      argNum rest a.length
    have hbuf : (if afterIndex = true then { p with goodArgNum := false } else p).buf = p.buf := by
      split <;> rfl
    revert harg
    rcases argNumber (if afterIndex = true then { p with goodArgNum := false } else p)
      argNum rest a.length with ⟨p1, argNum1, rest1, afterIndex1⟩
    intro harg
    simp only at harg
    simp only
    split
    · rename_i rest2
      rcases intFromArg a argNum1 with ⟨precPresent, argNum2⟩
      simp only [List.length_cons] at harg ⊢
      cases precPresent
      · exact ⟨by omega, "%!(BADPREC)".data, by simp [harg.2, hbuf]⟩
      · exact ⟨by omega, [], by simp [harg.2, hbuf]⟩
    · have := parsenumLoop_length rest1 0 false
      revert this
      unfold parsenum
      rcases parsenumLoop rest1 0 false with ⟨num, precPresent, rest2⟩
      intro this
      simp only at this ⊢
      simp only [List.length_cons]
      exact ⟨by omega, [], by simp [harg.2, hbuf]⟩
  · exact ⟨Nat.le_refl _, [], by simp⟩

/-- Without operands the final `switch` always writes something and consumes
no operand. -/
theorem printVerb_nil (p : pp) (f : fmtFlags) (argNum : Nat) (verb : Char) :
    ∃ q suffix, printVerb [] p f argNum verb = some (q, argNum) ∧ q.buf = p.buf ++ suffix := by
  unfold printVerb
  split
  · exact ⟨_, _, rfl, rfl⟩
  · split
    · exact ⟨_, _, rfl, by simp only [List.append_assoc]; rfl⟩
    · simp only [List.get?_nil]
      exact ⟨_, _, rfl, by simp only [List.append_assoc]; rfl⟩

/-- Index, width and precision together return no more text than they were
given and only add to the buffer. -/
theorem scanVerb_spec (a : List String) (p : pp) (f : fmtFlags) (argNum : Nat)
    (format : List Char) :
    (scanVerb a p f argNum format).2.2.2.length ≤ format.length ∧
    ∃ suffix, (scanVerb a p f argNum format).1.buf = p.buf ++ suffix := by
  have h1 := argNumber_length p argNum format a.length
  rcases h1e : argNumber p argNum format a.length with ⟨p1, argNum1, format1, afterIndex1⟩
  have h2 := scanWidth_spec a p1 f argNum1 afterIndex1 format1
  rcases h2e : scanWidth a p1 f argNum1 afterIndex1 format1 with
    ⟨p2, f2, argNum2, afterIndex2, format2⟩
  have h3 := scanPrecision_spec a p2 f2 argNum2 afterIndex2 format2
  rcases h3e : scanPrecision a p2 f2 argNum2 afterIndex2 format2 with
    ⟨p3, f3, argNum3, afterIndex3, format3⟩
  have h4 := argNumber_length p3 argNum3 format3 a.length
  rcases h4e : argNumber p3 argNum3 format3 a.length with ⟨p4, argNum4, format4, afterIndex4⟩
  rw [h1e] at h1
  rw [h2e] at h2
  rw [h3e] at h3
  rw [h4e] at h4
  simp only at h1 h2 h3 h4
  obtain ⟨s2, hs2⟩ := h2.2
  obtain ⟨s3, hs3⟩ := h3.2
  cases afterIndex3
  · simp only [scanVerb, h1e, h2e, h3e, h4e]
    refine ⟨by omega, s2 ++ s3, ?_⟩
    simp only [h4.2, hs3, hs2, h1.2, List.append_assoc]
  · simp only [scanVerb, h1e, h2e, h3e]
    refine ⟨by omega, s2 ++ s3, ?_⟩
    simp only [hs3, hs2, h1.2, List.append_assoc]

/-- Without operands the fast path is never taken. -/
theorem fastVerb_nil (argNum : Nat) (format : List Char) : fastVerb [] argNum format = none := by
  unfold fastVerb
  split
  · rename_i h
    simp at h
  · rfl

/-- Without operands a verb is always handled; the buffer only grows and the
format left is shorter. -/
theorem formatVerb_nil (p : pp) (argNum : Nat) (format : List Char) :
    ∃ q n next suffix, formatVerb [] p argNum format = some (q, n, next) ∧
      q.buf = p.buf ++ suffix ∧ ∀ rest, next = some rest → rest.length < format.length := by
  suffices h : ∀ r, formatVerb [] p argNum format = r →
      ∃ q n next suffix, r = some (q, n, next) ∧
        q.buf = p.buf ++ suffix ∧ ∀ rest, next = some rest → rest.length < format.length from
    h _ rfl
  intro r hr
  unfold formatVerb at hr
  split at hr
  · subst hr
    exact ⟨_, _, _, [], rfl, by simp, fun rest h => by cases h⟩
  · rename_i c f1
    split at hr
    rename_i f f2 hsfe
    have hsf := scanFlags_length f1 {}
    rw [hsfe] at hsf
    simp only at hsf
    split at hr
    · rename_i arg v rest hfast
      rw [fastVerb_nil] at hfast
      cases hfast
    · split at hr
      rename_i q1 g1 n1 f3 hsve
      have hsv := scanVerb_spec [] p f argNum f2
      rw [hsve] at hsv
      simp only at hsv
      obtain ⟨hlen3, s1, hs1⟩ := hsv
      split at hr
      · subst hr
        refine ⟨_, _, _, s1 ++ "%!(NOVERB)".data, rfl, ?_, fun rest h => by cases h⟩
        simp only [hs1, List.append_assoc]
      · rename_i verb f4
        obtain ⟨q2, s2, hpv, hs2⟩ := printVerb_nil q1 g1 n1 verb
        rw [hpv] at hr
        simp only at hr
        subst hr
        refine ⟨_, _, _, s1 ++ s2, rfl, ?_, ?_⟩
        · simp only [hs2, hs1, List.append_assoc]
        · intro rest hrest
          cases hrest
          simp only [List.length_cons] at hlen3 ⊢
          omega

/-- Without operands a round always succeeds; the buffer only grows and the
format left for the next round is shorter. -/
theorem formatStep_nil (p : pp) (argNum : Nat) (format : List Char) :
    ∃ q n next suffix, formatStep [] p argNum format = some (q, n, next) ∧
      q.buf = p.buf ++ suffix ∧ ∀ rest, next = some rest → rest.length < format.length := by
  obtain ⟨q, n, next, s, hverb, hbuf, hnext⟩ :=
    formatVerb_nil (copyText p format) argNum (format.dropWhile (fun c => c != '%'))
  have hdl := (List.dropWhile_sublist (fun c => c != '%') (l := format)).length_le
  refine ⟨q, n, next, format.takeWhile (fun c => c != '%') ++ s, hverb, ?_, ?_⟩
  · rw [hbuf]
    simp only [copyText, List.append_assoc]
  · intro rest hrest
    exact Nat.lt_of_lt_of_le (hnext rest hrest) hdl

/-- Without operands the loop always ends and only adds to the buffer. -/
theorem formatLoop_nil (fuel : Nat) : ∀ (p : pp) (argNum : Nat) (format : List Char),
    format.length < fuel →
    ∃ q n suffix, formatLoop [] fuel p argNum format = some (q, n) ∧ q.buf = p.buf ++ suffix := by
  induction fuel with
  | zero => intro p argNum format h; exact absurd h (Nat.not_lt_zero _)
  | succ fuel ih =>
    intro p argNum format hlen
    obtain ⟨q, n, next, s1, hstep, hbuf, hnext⟩ := formatStep_nil p argNum format
    cases next with
    | none =>
      refine ⟨q, n, s1, ?_, hbuf⟩
      simp only [formatLoop, hstep]
    | some rest =>
      have hrest := hnext rest rfl
      obtain ⟨q2, n2, s2, hloop, hbuf2⟩ := ih q n rest (by omega)
      refine ⟨q2, n2, s1 ++ s2, ?_, ?_⟩
      · simp only [formatLoop, hstep, hloop]
      · rw [hbuf2, hbuf, List.append_assoc]

/-- Without operands `doPrintf` always writes a text. -/
theorem doPrintf_nil (format : String) :
    ∃ q n, formatLoop [] (format.length + 1) { buf := [], reordered := false, goodArgNum := true }
        0 format.data = some (q, n) ∧ doPrintf format [] = some (String.mk q.buf) := by
  obtain ⟨q, n, s, hloop, _⟩ := formatLoop_nil (format.length + 1)
    { buf := [], reordered := false, goodArgNum := true } 0 format.data (Nat.lt_succ_self _)
  refine ⟨q, n, hloop, ?_⟩
  simp only [doPrintf, hloop]
  simp

/-- A round that meets `%"` without operands writes `%!"(MISSING)`. -/
theorem formatStep_percent_quote (p : pp) (argNum : Nat) (pre rest : List Char)
    (hpre : '%' ∉ pre) :
    formatStep [] p argNum (pre ++ '%' :: '"' :: rest) =
      some ({ buf := p.buf ++ pre ++ "%!\"(MISSING)".data, reordered := p.reordered,
              goodArgNum := true }, argNum, some rest) := by
  have hall : ∀ c ∈ pre, (c != '%') = true := by
    intro c hc
    have : c ≠ '%' := fun heq => hpre (heq ▸ hc)
    simpa using this
  have htake : (pre ++ '%' :: '"' :: rest).takeWhile (fun c => c != '%') = pre := by
    rw [List.takeWhile_append_of_pos hall]
    simp
  have hdrop : (pre ++ '%' :: '"' :: rest).dropWhile (fun c => c != '%') = '%' :: '"' :: rest := by
    rw [List.dropWhile_append_of_pos hall]
    simp
  simp only [formatStep, htake, hdrop, copyText, formatVerb]
  simp [scanFlags, fastVerb, scanVerb, argNumber, scanWidth, parsenum, parsenumLoop,
    scanPrecision, printVerb]

/-- Without operands, a format whose first percent sign stands before a
double quote is written with `%!"(MISSING)` in place of the two characters. -/
theorem doPrintf_percent_quote (pre rest : List Char) (hpre : '%' ∉ pre) :
    ∃ suffix, doPrintf (String.mk (pre ++ '%' :: '"' :: rest)) [] =
      some (String.mk (pre ++ "%!\"(MISSING)".data ++ suffix)) := by
  have hlen : (String.mk (pre ++ '%' :: '"' :: rest)).length = pre.length + rest.length + 2 := by
    simp only [String.length, List.length_append, List.length_cons]
    omega
  obtain ⟨q, n, s, hloop, hbuf⟩ := formatLoop_nil (pre.length + rest.length + 2)
    { buf := [] ++ pre ++ "%!\"(MISSING)".data, reordered := false, goodArgNum := true } 0 rest
    (by omega)
  refine ⟨s, ?_⟩
  simp only [doPrintf, hlen, formatLoop, formatStep_percent_quote _ _ _ _ hpre, hloop]
  simp [hbuf]

/-! ## `cliDumpLanguages` -/

/-- C6, the code at a table with the language name `100%`: the JSON text is
used as the format, so the text written is not the JSON text followed by a
newline. -/
theorem cliDumpLanguages_percent_name :
    percentEnv.MarshalIndent percentLanguages.Map "" "  " = Except.ok percentJSON ∧
    (cliDumpLanguages percentEnv (sampleContext false)).map (fun o => stdoutText o.trace) =
      Except.ok "\x7b\n  \"100%!\"(MISSING): \x7b\x7d\n\x7d\n" ∧
    "\x7b\n  \"100%!\"(MISSING): \x7b\x7d\n\x7d\n" ≠ percentJSON ++ "\n" :=
  ⟨rfl, rfl, by decide⟩

/-- The general form of the defect behind C6: whenever the first percent sign
of the JSON text stands before a double quote (a name or alias that ends in a
percent sign), `cliDumpLanguages` returns nil after writing a text that is not
the JSON text followed by a newline. -/
theorem cliDumpLanguages_percent_quote (env : Env) (ctx : Context) (langs : Languages)
    (pre rest : List Char)
    (hload : env.LoadLanguages (ctx.flagString "languages") = Except.ok langs)
    (hjson : env.MarshalIndent langs.Map "" "  " =
      Except.ok (String.mk (pre ++ '%' :: '"' :: rest)))
    (hpre : '%' ∉ pre) :
    ∃ text, cliDumpLanguages env ctx = Except.ok
        { result := none,
          trace := [Event.loadLanguages (ctx.flagString "languages"), Event.stdout text] } ∧
      text ≠ String.mk (pre ++ '%' :: '"' :: rest) ++ "\n" := by
  obtain ⟨s, hs⟩ := doPrintf_percent_quote pre (rest ++ ['\n']) hpre
  have happ : String.mk (pre ++ '%' :: '"' :: rest) ++ "\n" =
      String.mk (pre ++ '%' :: '"' :: (rest ++ ['\n'])) := by
    show String.mk ((pre ++ '%' :: '"' :: rest) ++ ['\n']) = _
    simp
  refine ⟨String.mk (pre ++ "%!\"(MISSING)".data ++ s), ?_, ?_⟩
  · simp only [cliDumpLanguages, hload, hjson, happ, hs]
  · rw [happ]
    intro heq
    injection heq with heq
    rw [List.append_assoc] at heq
    have := List.append_cancel_left heq
    simp at this

/-- The sample table with the name `100%` is an instance of
`cliDumpLanguages_percent_quote`. -/
theorem cliDumpLanguages_percent_quote_sample :
    ∃ text, cliDumpLanguages percentEnv (sampleContext false) = Except.ok
        { result := none,
          trace := [Event.loadLanguages ((sampleContext false).flagString "languages"),
            Event.stdout text] } ∧
      text ≠ String.mk ("\x7b\n  \"100".data ++ '%' :: '"' :: ": \x7b\x7d\n\x7d".data) ++ "\n" :=
  cliDumpLanguages_percent_quote percentEnv (sampleContext false) percentLanguages
    "\x7b\n  \"100".data ": \x7b\x7d\n\x7d".data rfl rfl (by decide)

/-! ## `cliListFrobs` -/

/-- Membership after the assignments `known[alias] = true`. -/
theorem mem_foldl_mapSet (aliases : List String) (known : List String) (s : String) :
    s ∈ aliases.foldl mapSet known ↔ s ∈ known ∨ s ∈ aliases := by
  induction aliases generalizing known with
  | nil => simp
  | cons a rest ih =>
    rw [List.foldl_cons, ih]
    unfold mapSet
    by_cases ha : a ∈ known
    · rw [if_pos ha]
      constructor
      · rintro (h | h)
        · exact Or.inl h
        · exact Or.inr (List.mem_cons_of_mem _ h)
      · rintro (h | h)
        · exact Or.inl h
        · rcases List.mem_cons.mp h with h | h
          · exact Or.inl (h ▸ ha)
          · exact Or.inr h
    · rw [if_neg ha]
      simp only [List.mem_append, List.mem_singleton, List.mem_cons]
      tauto

/-- The keys of the map stay distinct. -/
theorem nodup_foldl_mapSet (aliases : List String) (known : List String) (h : known.Nodup) :
    (aliases.foldl mapSet known).Nodup := by
  induction aliases generalizing known with
  | nil => simpa using h
  | cons a rest ih =>
    rw [List.foldl_cons]
    apply ih
    unfold mapSet
    by_cases ha : a ∈ known
    · rw [if_pos ha]
      exact h
    · rw [if_neg ha]
      rw [List.nodup_append]
      refine ⟨h, List.nodup_singleton a, ?_⟩
      intro x hx hx2
      rw [List.mem_singleton] at hx2
      exact ha (hx2 ▸ hx)

/-- When every name has an entry, the first loop of `cliListFrobs` ends with
exactly the aliases of the named languages added to `known`. -/
theorem collectKnown_spec (langs : Languages) (names : List String) (known : List String)
    (hknown : known.Nodup) (hall : ∀ name ∈ names, langs.Lookup name ≠ none) :
    ∃ out, collectKnown langs names known = some out ∧ out.Nodup ∧
      ∀ s, s ∈ out ↔ s ∈ known ∨
        ∃ name ∈ names, ∃ d, langs.Lookup name = some d ∧ s ∈ d.Aliases := by
  induction names generalizing known with
  | nil => exact ⟨known, rfl, hknown, fun s => by simp⟩
  | cons name rest ih =>
    have hname := hall name (List.mem_cons_self _ _)
    cases hd : langs.Lookup name with
    | none => exact absurd hd hname
    | some d =>
      obtain ⟨out, hout, hnd, hmem⟩ := ih (d.Aliases.foldl mapSet known)
        (nodup_foldl_mapSet _ _ hknown) (fun n hn => hall n (List.mem_cons_of_mem _ hn))
      refine ⟨out, ?_, hnd, ?_⟩
      · simp only [collectKnown, hd]
        exact hout
      · intro s
        rw [hmem s, mem_foldl_mapSet]
        constructor
        · rintro ((h | h) | ⟨n, hn, d2, hd2, hs⟩)
          · exact Or.inl h
          · exact Or.inr ⟨name, List.mem_cons_self _ _, d, hd, h⟩
          · exact Or.inr ⟨n, List.mem_cons_of_mem _ hn, d2, hd2, hs⟩
        · rintro (h | ⟨n, hn, d2, hd2, hs⟩)
          · exact Or.inl (Or.inl h)
          · rcases List.mem_cons.mp hn with hn | hn
            · subst hn
              rw [hd] at hd2
              cases hd2
              exact Or.inl (Or.inr hs)
            · exact Or.inr ⟨n, hn, d2, hd2, hs⟩

/-- The print loop writes each string followed by a newline. -/
theorem printLines_eq (xs : List String) :
    printLines xs = some (xs.map (fun s => Event.stdout (s ++ "\n"))) := by
  induction xs with
  | nil => rfl
  | cons x rest ih => simp only [printLines, doPrintf_line, ih, List.map_cons]

/-- C7: when the table loads and every key of `DefaultFrobs` has an entry,
`cliListFrobs` returns nil after printing, one per line and each once, exactly
the strings that are an alias of `langs.Lookup(name)` for some key `name` of
`DefaultFrobs`. -/
theorem cliListFrobs_prints_known_aliases (env : Env) (ctx : Context) (langs : Languages)
    (hload : env.LoadLanguages (ctx.flagString "languages") = Except.ok langs)
    (hall : ∀ name ∈ env.DefaultFrobs, langs.Lookup name ≠ none) :
    ∃ lines : List String,
      cliListFrobs env ctx = Except.ok
        { result := none,
          trace := Event.loadLanguages (ctx.flagString "languages") ::
            lines.map (fun s => Event.stdout (s ++ "\n")) } ∧
      lines.Nodup ∧
      ∀ s, s ∈ lines ↔
        ∃ name ∈ env.DefaultFrobs, ∃ d, langs.Lookup name = some d ∧ s ∈ d.Aliases := by
  obtain ⟨known, hknown, hnd, hmem⟩ :=
    collectKnown_spec langs env.DefaultFrobs [] List.nodup_nil hall
  refine ⟨sortStrings known, ?_, ?_, ?_⟩
  · simp only [cliListFrobs, hload, hknown, printLines_eq]
  · exact (List.perm_insertionSort _ known).nodup_iff.mpr hnd
  · intro s
    unfold sortStrings
    rw [List.mem_insertionSort, hmem s]
    simp

/-- Witness for C7: the sample table, whose two languages share the alias
`go`. -/
theorem cliListFrobs_prints_known_aliases_witness :
    ∃ lines : List String,
      cliListFrobs (sampleEnv (Except.ok failingRunner)) (sampleContext false) = Except.ok
        { result := none,
          trace := Event.loadLanguages ((sampleContext false).flagString "languages") ::
            lines.map (fun s => Event.stdout (s ++ "\n")) } ∧
      lines.Nodup ∧
      ∀ s, s ∈ lines ↔
        ∃ name ∈ (sampleEnv (Except.ok failingRunner)).DefaultFrobs,
          ∃ d, sampleLanguages.Lookup name = some d ∧ s ∈ d.Aliases :=
  cliListFrobs_prints_known_aliases (sampleEnv (Except.ok failingRunner)) (sampleContext false)
    sampleLanguages rfl (by
      intro name hname
      simp only [sampleEnv, List.mem_cons, List.mem_singleton, List.not_mem_nil, or_false] at hname
      rcases hname with h | h <;> subst h <;> simp [sampleLanguages])

end Gfmxr
